import Mathlib

/-!
# Verification of the `docstr` token transformation (src/src/lib.rs)

This file gives a shallow embedding of the `docstr` procedural macro from
`src/src/lib.rs` and proves properties of it.

Modelling conventions:

* A host `TokenTree` is the inductive `TokenTree` below.  Source locations
  (`proc_macro::Span`) are opaque in the original, so they are modelled as
  natural numbers; `Span::call_site()` is the distinguished value `callSite = 0`.
* A host `TokenStream` is a `List TokenTree`.
* The literal decoder (`litrs::Literal::try_from` followed by matching
  `litrs::Literal::String` and calling `.value()`) sits at the host boundary:
  a string-literal token carries its already-decoded value, and `decodeStrLit`
  succeeds exactly on plain (`"..."`) and raw (`r"..."`) string literal tokens,
  as the source's pattern match does.
* The diagnostic collector `compile_errors` of the source is a `List Diag`
  (the source stores already-formatted message strings); rendering a
  collector into the `compile_error! { "..." }` token runs is `renderDiags`,
  mirroring `CompileError::into_iter`.
* The `unreachable!()` panic in the scanner's catch-all arm (lib.rs:307-309)
  is modelled by returning `none` from the scan loop: a panic aborts the
  transformation, so `docstr` yields `Option (List TokenTree)`.
-/

/-- `proc_macro::Spacing`. -/
inductive Spacing where
  | alone
  | joint
deriving DecidableEq, Repr

/-- `proc_macro::Delimiter`. -/
inductive Delim where
  | parenthesis
  | brace
  | bracket
  | none
deriving DecidableEq, Repr

/-- The payload of a `proc_macro::Literal` token, as seen through `litrs`:
either a plain string literal (carrying its decoded value), a raw string
literal (carrying its decoded value), or any other literal kind. -/
inductive LitVal where
  | str (value : String)
  | rawStr (value : String)
  | other
deriving DecidableEq, Repr

/-- `proc_macro::TokenTree`, with opaque spans as `Nat`. -/
inductive TokenTree where
  | ident (name : String) (sp : Nat)
  | punct (ch : Char) (spc : Spacing) (sp : Nat)
  | lit (value : LitVal) (sp : Nat)
  | group (delim : Delim) (stream : List TokenTree) (sp : Nat)
deriving Repr

/-- `Span::call_site()`. -/
def callSite : Nat := 0

/-- `TokenTree::span()`. -/
def TokenTree.span : TokenTree → Nat
  | .ident _ sp => sp
  | .punct _ _ sp => sp
  | .lit _ sp => sp
  | .group _ _ sp => sp

/-- Whether a token is a `Punct` with the given character
(`matches!(tt, TokenTree::Punct(p) if *p == c)`; spacing is ignored,
as in the source's `==` comparisons between `Punct` and `char`). -/
def ttIsPunct (c : Char) : TokenTree → Bool
  | .punct ch _ _ => ch = c
  | _ => false

/-- One collected diagnostic: a `(span, message)` pair, as accumulated by the
`compile_error` closure in `docstr` (the source formats messages to `String`
at collection time). -/
structure Diag where
  span : Nat
  message : String
deriving DecidableEq, Repr

/-- `CompileError::into_iter`: the three tokens
`compile_error` `!` `{ "message" }`, all carrying the diagnostic's span. -/
def compileErrorTokens (d : Diag) : List TokenTree :=
  [ .ident "compile_error" d.span,
    .punct '!' .alone d.span,
    .group .brace [.lit (.str d.message) d.span] d.span ]

/-- The rendered diagnostic report: the concatenation of the
`compile_error! { ... }` invocations of every collected diagnostic, in
collection order (the `compile_errors` token stream of the source). -/
def renderDiags (ds : List Diag) : List TokenTree :=
  (ds.map compileErrorTokens).flatten

/-- The scan state `DocCommentProgress` (lib.rs:569-577).  The Rust enum
derives `Ord` with declaration order `NotReached < Inside < Finished`. -/
inductive Progress where
  | notReached
  | inside
  | finished
deriving DecidableEq, Repr

/-- Numeric rank of a scan state, realising the derived `Ord`
(`NotReached < Inside < Finished`). -/
def Progress.toNat : Progress → Nat
  | .notReached => 0
  | .inside => 1
  | .finished => 2

/-- The mutable state of `docstr`'s scan loop (lib.rs:217-245): the `before`
stream, the collected `doc_comments`, the `after` stream, the
`doc_comment_progress` state, and the `compile_errors` collector. -/
structure LoopState where
  before : List TokenTree
  docComments : List String
  after : List TokenTree
  progress : Progress
  compileErrors : List Diag
deriving Repr

/-- The Literal Decoder boundary: `litrs::Literal::try_from(tt)` matched
against `litrs::Literal::String(lit)`, then `lit.value()` (lib.rs:389-397).
Succeeds exactly on plain and raw string-literal tokens, yielding the decoded
value. -/
def decodeStrLit : TokenTree → Option String
  | .lit (.str v) _ => some v
  | .lit (.rawStr v) _ => some v
  | _ => none

/-- `literal.strip_prefix(' ').unwrap_or(literal)` (lib.rs:412): remove one
leading space character if present, otherwise keep the string unchanged. -/
def stripLeadingSpace (s : String) : String :=
  match s.data with
  | ' ' :: rest => String.mk rest
  | _ => s

/-- Parsing the interior of the bracketed group of one pseudo-attribute
`#[doc = "..."]` (lib.rs:345-414): expect `doc`, then `=`, then a string
literal; on success return the decoded value with one leading space stripped.
`spanOpen` is the span of the group's opening bracket (`span_open()`),
used for the "expected `doc` after `[`" diagnostic. -/
def parseDocAttrInner (spanOpen : Nat) (inner : List TokenTree) :
    Except Diag String :=
  match inner with
  | [] => .error ⟨spanOpen, "expected `doc` after `[`"⟩
  | t0 :: rest0 =>
    match t0 with
    | .ident nm spDoc =>
      if nm = "doc" then
        match rest0 with
        | [] => .error ⟨spDoc, "expected `=` after `doc`"⟩
        | t1 :: rest1 =>
          match t1 with
          | .punct '=' _ spEq =>
            match rest1 with
            | [] => .error ⟨spEq, "expected string literal after `=`"⟩
            | t2 :: _ =>
              match decodeStrLit t2 with
              | some v => .ok (stripLeadingSpace v)
              | Option.none =>
                .error ⟨t2.span, "only string \"...\" or r\"...\" literals are supported"⟩
          | _ => .error ⟨t1.span, "expected `=`"⟩
      else .error ⟨t0.span, "expected `doc`"⟩
    | _ => .error ⟨t0.span, "expected `doc`"⟩

/-- The comma synthesised during error recovery:
`Punct::new(',', Spacing::Joint)` with the default (call-site) span
(lib.rs:300). -/
def commaTok : TokenTree := .punct ',' .joint callSite

/-- The Payload Joiner (lib.rs:434-441):
`doc_comments.into_iter().reduce(|mut acc, s| { acc.push('\n');
acc.push_str(&s); acc }).unwrap_or_default()` — a left fold over the
segments starting from the first one, pushing a newline then the next
segment; the empty list yields the empty string. -/
def joinDocComments (docs : List String) : String :=
  match docs with
  | [] => ""
  | d :: rest => rest.foldl (fun acc s => acc.push '\n' ++ s) d

/-- Whether the peeked head of a cursor is a `#` punctuation token
(`matches!(input.peek(), Some(TokenTree::Punct(p)) if *p == '#')`). -/
def headIsHash : List TokenTree → Bool
  | t :: _ => ttIsPunct '#' t
  | [] => false

/-- The trailing part of the scanner's `#` arm (lib.rs:312-341 and 345-415):
`errs1` is the collector after the inner-doc-comment check, `rest1` the cursor
after it, `hashSpan` the span of the `#` token (`doc_comment_start_span`).
The next token must be a bracket-delimited group (else "expected `[...]`" /
"expected `#` to be followed by `[...]`" and the attribute is abandoned with
the state left `Inside`); once the group is in hand the token after it is
peeked: another `#` keeps the state `Inside`, anything else moves it to
`Finished`; finally the group's interior is parsed by `parseDocAttrInner`,
appending one segment on success and one diagnostic on failure. -/
def scanAttr (hashSpan : Nat) (errs1 : List Diag) (rest1 : List TokenTree)
    (st : LoopState) : List TokenTree × LoopState :=
  match rest1 with
  | .group .bracket inner gsp :: rest2 =>
    let progress2 : Progress := if headIsHash rest2 then .inside else .finished
    match parseDocAttrInner gsp inner with
    | .ok s =>
      (rest2, { st with progress := progress2,
                        docComments := st.docComments ++ [s],
                        compileErrors := errs1 })
    | .error d =>
      (rest2, { st with progress := progress2,
                        compileErrors := errs1 ++ [d] })
  | t1 :: rest2 =>
    (rest2, { st with progress := .inside,
                      compileErrors := errs1 ++ [Diag.mk t1.span "expected `[...]`"] })
  | [] =>
    ([], { st with progress := .inside,
                   compileErrors :=
                     errs1 ++ [Diag.mk hashSpan "expected `#` to be followed by `[...]`"] })

/-- The scanner's `#` arm (lib.rs:256-279 plus the fall-through): the state
has already moved to `Inside`; a `!` directly following the `#` is the
inner-doc-comment error and that token is consumed (lib.rs:268-278); then
`scanAttr` handles the bracketed group. -/
def scanHashBranch (hashSpan : Nat) (rest : List TokenTree) (st : LoopState) :
    List TokenTree × LoopState :=
  match rest with
  | t1 :: rest' =>
    if ttIsPunct '!' t1 then
      scanAttr hashSpan
        (st.compileErrors ++
          [Diag.mk t1.span
            "Inner doc comments `//! ...` are not supported. Please use `/// ...`"])
        rest' st
    else scanAttr hashSpan st.compileErrors rest st
  | [] => scanAttr hashSpan st.compileErrors [] st

/-- The scanner's `NotReached` arm for a non-`#` token (lib.rs:283-306): the
token goes to `before`; if the next token is `#` and the current one is not a
comma, the missing-separator diagnostic "expected `,` after this" is filed at
the current token and a recovery comma is appended to `before`.  The cursor is
not advanced further by this arm. -/
def scanBefore (tt : TokenTree) (rest : List TokenTree) (st : LoopState) :
    LoopState :=
  if headIsHash rest && !ttIsPunct ',' tt then
    { st with before := st.before ++ [tt, commaTok],
              compileErrors :=
                st.compileErrors ++ [Diag.mk tt.span "expected `,` after this"] }
  else
    { st with before := st.before ++ [tt] }

/-- One iteration of `docstr`'s scan loop (lib.rs:245-415).  `tt` is the token
returned by `input.next()`, `rest` is the remainder of the cursor (peeks and
further `next()` calls read from it).  Returns the remaining cursor and the
updated state, or `none` when the `unreachable!()` catch-all arm
(lib.rs:307-309) is hit, which aborts the transformation (a panic).
Branches, in source order: state `Finished` routes the token to `after`;
a `#` token runs the attribute arm; a non-`#` token in state `NotReached`
runs the `before` arm; a non-`#` token in state `Inside` is the
`unreachable!()` arm. -/
def scanStep (tt : TokenTree) (rest : List TokenTree) (st : LoopState) :
    Option (List TokenTree × LoopState) :=
  if st.progress = .finished then
    some (rest, { st with after := st.after ++ [tt] })
  else if ttIsPunct '#' tt then
    some (scanHashBranch tt.span rest st)
  else if st.progress = .notReached then
    some (rest, scanBefore tt rest st)
  else
    none

/-- The cursor left by `scanAttr` is no longer than the cursor it starts
from. -/
theorem scanAttr_length_le (hashSpan : Nat) (errs1 : List Diag)
    (rest1 : List TokenTree) (st : LoopState) :
    (scanAttr hashSpan errs1 rest1 st).1.length ≤ rest1.length := by
  unfold scanAttr
  repeat' split
  all_goals simp

/-- The cursor left by one scan iteration is no longer than the cursor the
iteration started from (every branch consumes at least the token `tt`). -/
theorem scanStep_length_le {tt : TokenTree} {rest rest' : List TokenTree}
    {st st' : LoopState} (h : scanStep tt rest st = some (rest', st')) :
    rest'.length ≤ rest.length := by
  unfold scanStep at h
  split at h
  · simp only [Option.some.injEq, Prod.mk.injEq] at h
    exact h.1 ▸ Nat.le_refl _
  split at h
  · simp only [Option.some.injEq] at h
    have h2 : (scanHashBranch tt.span rest st).1 = rest' := by rw [h]
    subst h2
    unfold scanHashBranch
    repeat' split
    all_goals
      refine Nat.le_trans (scanAttr_length_le ..) ?_
      simp
  split at h
  · simp only [Option.some.injEq, Prod.mk.injEq] at h
    exact h.1 ▸ Nat.le_refl _
  · exact absurd h (by simp)

/-- The scan loop of `docstr` (lib.rs:245): iterate `scanStep` until the
input cursor is exhausted; `none` when an iteration hits the
`unreachable!()` panic. -/
def scanLoop (l : List TokenTree) (st : LoopState) : Option LoopState :=
  match l with
  | [] => some st
  | tt :: rest =>
    match h : scanStep tt rest st with
    | Option.none => none
    | some (rest', st') => scanLoop rest' st'
termination_by l.length
decreasing_by
  have := scanStep_length_le h
  simp only [List.length_cons]
  omega

/-- `macro_.clone().into_iter().last().map(|last| last.span())
.unwrap_or_else(Span::call_site)` (lib.rs:181-188). -/
def lastTokenSpan (ts : List TokenTree) : Nat :=
  match ts.getLast? with
  | some t => t.span
  | Option.none => callSite

/-- Rendering of one token as the host's `Display` does when the source
interpolates the partial path into an error message (`{macro_}`).  The host
rendering is approximated; the scanned path only ever holds identifiers and
`:` / `!` punctuation, so literal and group tokens never occur there. -/
def displayToken : TokenTree → String
  | .ident nm _ => nm
  | .punct c _ _ => String.singleton c
  | .lit (.str v) _ => "\"" ++ v ++ "\""
  | .lit (.rawStr v) _ => "r\"" ++ v ++ "\""
  | .lit .other _ => "..."
  | .group _ _ _ => "..."

/-- Rendering of a token stream into an error message (approximating the
host's `Display`, which separates tokens). -/
def displayTokens (ts : List TokenTree) : String :=
  String.intercalate " " (ts.map displayToken)

/-- The message of lib.rs:189-197 (`concat!` of the four fragments). -/
def expectedPathMsg : String :=
  "expected path to macro like: `std::format!`\n\nnote: macro path is optional and can be omitted to produce a `&'static str`"

/-- The message of lib.rs:164. -/
def twoIdentsMsg (acc : List TokenTree) (nm : String) : String :=
  "2 identifiers in a row is not a valid macro path\n\ndid you mean one of:\n- `"
    ++ displayTokens acc ++ "::" ++ nm ++ "`\n- `" ++ displayTokens acc ++ "! "
    ++ nm ++ "`"

/-- The message of lib.rs:175. -/
def replaceBangMsg (acc : List TokenTree) : String :=
  "replace with `!` to pass the macro: `" ++ displayTokens acc ++ "!`"

/-- The Call-Target Scanner's loop (lib.rs:142-202): consume tokens building
the macro path `acc`; `!` ends the path (kept as its last token); `:` and
identifiers extend it, two identifiers in a row being an error; a comma or
any other token (or end of input) is an error.  On any error the path is
reset to the empty stream and the loop breaks.  Returns the path, the
diagnostics filed, and the remaining input. -/
def pathLoop (acc : List TokenTree) (lastIsIdent : Bool) :
    List TokenTree → List TokenTree × List Diag × List TokenTree
  | [] => ([], [Diag.mk (lastTokenSpan acc) expectedPathMsg], [])
  | tt :: rest =>
    match tt with
    | .punct '!' _ _ => (acc ++ [tt], [], rest)
    | .punct ':' _ _ => pathLoop (acc ++ [tt]) false rest
    | .ident nm sp =>
      if lastIsIdent then ([], [Diag.mk sp (twoIdentsMsg acc nm)], rest)
      else pathLoop (acc ++ [.ident nm sp]) true rest
    | .punct ',' _ sp => ([], [Diag.mk sp (replaceBangMsg acc)], rest)
    | _ => ([], [Diag.mk tt.span expectedPathMsg], rest)

/-- The Call-Target Scanner (lib.rs:129-215, nonempty input): peek the first
token; a `#` means bare-literal mode (`None`, nothing consumed); anything
else starts the path loop.  Note that a failed path scan still yields
`some path` (with the path reset to empty and a diagnostic filed) — the
bare-literal branch is not taken. -/
def scanTarget (input : List TokenTree) :
    Option (List TokenTree) × List Diag × List TokenTree :=
  match input with
  | .punct '#' _ _ :: _ => (Option.none, [], input)
  | _ =>
    let r := pathLoop [] false input
    (some r.1, r.2.1, r.2.2)

/-- The initial scan-loop state (lib.rs:217-241): empty buffers, state
`NotReached`, and whatever the Call-Target Scanner already collected. -/
def initLoopState (errs0 : List Diag) : LoopState :=
  ⟨[], [], [], .notReached, errs0⟩

/-- The message of lib.rs:446-451 (`concat!` of the two fragments). -/
def docsOnlyMsg : String :=
  "expected macro input to only contain doc comments `///`, because you haven't supplied a path to a macro as the 1st argument"

/-- The message of lib.rs:210 and lib.rs:420. -/
def atLeastOneDocMsg : String :=
  "expected at least 1 documentation comment `/// ...`"

/-- The tail of `docstr` after the scan loop (lib.rs:417-507): file the
empty-segment diagnostic if no doc comment was collected; join the segments;
then, in bare-literal mode, file the non-empty-`before`/`after` diagnostic,
return the rendered report if the collector is non-empty and a single
string-literal token otherwise; with a call target, return the rendered
report if the collector is non-empty, and otherwise the call expression
`target ++ ( before ++ [literal, comma] ++ after )`.  The first component of
the result is the final contents of the diagnostic collector. -/
def synthesize (targetPath : Option (List TokenTree)) (st : LoopState) :
    List Diag × List TokenTree :=
  let errs1 :=
    if st.docComments.isEmpty then
      st.compileErrors ++ [Diag.mk callSite atLeastOneDocMsg]
    else st.compileErrors
  let str := joinDocComments st.docComments
  match targetPath with
  | Option.none =>
    let errs2 :=
      if !st.before.isEmpty || !st.after.isEmpty then
        errs1 ++ [Diag.mk callSite docsOnlyMsg]
      else errs1
    if errs2.isEmpty then ([], [.lit (.str str) callSite])
    else (errs2, renderDiags errs2)
  | some m =>
    if errs1.isEmpty then
      ([], m ++ [.group .parenthesis
        (st.before ++ [.lit (.str str) callSite, .punct ',' .joint callSite]
          ++ st.after) callSite])
    else (errs1, renderDiags errs1)

/-- The Call-Target Scanner plus the scan loop of `docstr`, exposing the
scanned target and the final loop state (`none` for the empty input, which
`docstr` handles before scanning, and for a panicking scan). -/
def docstrParts (input : List TokenTree) :
    Option (Option (List TokenTree) × LoopState) :=
  match input with
  | [] => Option.none
  | _ :: _ =>
    let r := scanTarget input
    match scanLoop r.2.2 (initLoopState r.2.1) with
    | Option.none => Option.none
    | some st => some (r.1, st)

/-- The whole transformation together with the final contents of the
diagnostic collector: the empty input returns the single
`compile_error!` report of lib.rs:207-214 (filed directly, bypassing the
collector); otherwise the scan runs and `synthesize` assembles the result.
`none` models the `unreachable!()` panic. -/
def docstrAux (input : List TokenTree) :
    Option (List Diag × List TokenTree) :=
  match input with
  | [] => some ([], compileErrorTokens (Diag.mk callSite atLeastOneDocMsg))
  | _ :: _ =>
    match docstrParts input with
    | Option.none => Option.none
    | some (mo, st) => some (synthesize mo st)

/-- The `docstr` procedural macro (lib.rs:114-508), input token stream to
output token stream; `none` models the `unreachable!()` panic. -/
def docstr (input : List TokenTree) : Option (List TokenTree) :=
  match docstrAux input with
  | Option.none => Option.none
  | some r => some r.2

/-! ## The scan state machine's transition structure -/

/-- The three forward edges of the Doc-Segment Scanner's state machine:
`NotReached → Inside` (lib.rs:258-259), `Inside → Inside` (lib.rs:261-263
and lib.rs:333-336), and `Inside → Finished` (lib.rs:337-340). -/
inductive ProgressStep : Progress → Progress → Prop where
  | notReachedInside : ProgressStep .notReached .inside
  | insideInside : ProgressStep .inside .inside
  | insideFinished : ProgressStep .inside .finished

/-- Every forward edge is non-decreasing in the `NotReached < Inside <
Finished` order. -/
theorem ProgressStep.toNat_le {p q : Progress} (h : ProgressStep p q) :
    p.toNat ≤ q.toNat := by
  cases h <;> simp [Progress.toNat]

/-! ## Facts about one scan-attribute step -/

theorem scanAttr_before (hs : Nat) (e : List Diag) (r : List TokenTree)
    (st : LoopState) : (scanAttr hs e r st).2.before = st.before := by
  unfold scanAttr
  repeat' split
  all_goals simp

theorem scanAttr_after (hs : Nat) (e : List Diag) (r : List TokenTree)
    (st : LoopState) : (scanAttr hs e r st).2.after = st.after := by
  unfold scanAttr
  repeat' split
  all_goals simp

theorem scanAttr_progress (hs : Nat) (e : List Diag) (r : List TokenTree)
    (st : LoopState) : (scanAttr hs e r st).2.progress = .inside ∨
      (scanAttr hs e r st).2.progress = .finished := by
  unfold scanAttr
  repeat' split
  all_goals simp_all

theorem scanAttr_errs (hs : Nat) (e : List Diag) (r : List TokenTree)
    (st : LoopState) : ∃ ds, (scanAttr hs e r st).2.compileErrors = e ++ ds := by
  unfold scanAttr
  repeat' split
  all_goals simp

theorem scanAttr_docs (hs : Nat) (e : List Diag) (r : List TokenTree)
    (st : LoopState) :
    ∃ ds, (scanAttr hs e r st).2.docComments = st.docComments ++ ds := by
  unfold scanAttr
  repeat' split
  all_goals simp

/-! ## Facts about the whole `#` arm -/

theorem scanHashBranch_before (hs : Nat) (rest : List TokenTree)
    (st : LoopState) : (scanHashBranch hs rest st).2.before = st.before := by
  unfold scanHashBranch
  repeat' split
  all_goals apply scanAttr_before

theorem scanHashBranch_after (hs : Nat) (rest : List TokenTree)
    (st : LoopState) : (scanHashBranch hs rest st).2.after = st.after := by
  unfold scanHashBranch
  repeat' split
  all_goals apply scanAttr_after

theorem scanHashBranch_progress (hs : Nat) (rest : List TokenTree)
    (st : LoopState) : (scanHashBranch hs rest st).2.progress = .inside ∨
      (scanHashBranch hs rest st).2.progress = .finished := by
  unfold scanHashBranch
  repeat' split
  all_goals apply scanAttr_progress

theorem scanHashBranch_errs (hs : Nat) (rest : List TokenTree)
    (st : LoopState) :
    ∃ ds, (scanHashBranch hs rest st).2.compileErrors = st.compileErrors ++ ds := by
  unfold scanHashBranch
  repeat' split
  · obtain ⟨ds, hds⟩ := scanAttr_errs ..
    exact ⟨_, by rw [hds, List.append_assoc]⟩
  all_goals apply scanAttr_errs

theorem scanHashBranch_docs (hs : Nat) (rest : List TokenTree)
    (st : LoopState) :
    ∃ ds, (scanHashBranch hs rest st).2.docComments = st.docComments ++ ds := by
  unfold scanHashBranch
  repeat' split
  all_goals apply scanAttr_docs

/-! ## Facts about one iteration of the scan loop -/

/-- Exhaustive description of a non-panicking scan iteration: it is the
`Finished` routing arm, the `#` arm, or the `NotReached` `before` arm. -/
theorem scanStep_cases {tt : TokenTree} {rest rest' : List TokenTree}
    {st st' : LoopState} (h : scanStep tt rest st = some (rest', st')) :
    (st.progress = .finished ∧ rest' = rest ∧
      st' = { st with after := st.after ++ [tt] }) ∨
    (st.progress ≠ .finished ∧ ttIsPunct '#' tt = true ∧
      (rest', st') = scanHashBranch tt.span rest st) ∨
    (st.progress = .notReached ∧ ttIsPunct '#' tt = false ∧
      rest' = rest ∧ st' = scanBefore tt rest st) := by
  unfold scanStep at h
  by_cases hf : st.progress = .finished
  · rw [if_pos hf] at h
    simp only [Option.some.injEq, Prod.mk.injEq] at h
    exact Or.inl ⟨hf, h.1.symm, h.2.symm⟩
  rw [if_neg hf] at h
  by_cases hh : ttIsPunct '#' tt = true
  · rw [if_pos hh] at h
    simp only [Option.some.injEq] at h
    exact Or.inr (Or.inl ⟨hf, hh, h.symm⟩)
  rw [if_neg hh] at h
  by_cases hn : st.progress = .notReached
  · rw [if_pos hn] at h
    simp only [Option.some.injEq, Prod.mk.injEq] at h
    exact Or.inr (Or.inr ⟨hn, by simpa using hh, h.1.symm, h.2.symm⟩)
  · rw [if_neg hn] at h
    exact absurd h (by simp)

/-- `scanBefore` never touches the scan state, the segments or the `after`
buffer, and only appends to the collector and to `before`. -/
theorem scanBefore_spec (tt : TokenTree) (rest : List TokenTree)
    (st : LoopState) :
    (scanBefore tt rest st).progress = st.progress ∧
    (scanBefore tt rest st).docComments = st.docComments ∧
    (scanBefore tt rest st).after = st.after ∧
    ((scanBefore tt rest st).before = st.before ++ [tt] ∧
        (scanBefore tt rest st).compileErrors = st.compileErrors ∧
        (headIsHash rest = false ∨ ttIsPunct ',' tt = true) ∨
      (scanBefore tt rest st).before = st.before ++ [tt, commaTok] ∧
        (scanBefore tt rest st).compileErrors =
          st.compileErrors ++ [Diag.mk tt.span "expected `,` after this"] ∧
        headIsHash rest = true ∧ ttIsPunct ',' tt = false) := by
  unfold scanBefore
  split
  · rename_i hcond
    simp only [Bool.and_eq_true, Bool.not_eq_true'] at hcond
    exact ⟨rfl, rfl, rfl, Or.inr ⟨rfl, rfl, hcond.1, hcond.2⟩⟩
  · rename_i hcond
    refine ⟨rfl, rfl, rfl, Or.inl ⟨rfl, rfl, ?_⟩⟩
    cases hhd : headIsHash rest with
    | false => exact Or.inl rfl
    | true =>
      cases hcm : ttIsPunct ',' tt with
      | false => exact absurd (by simp [hhd, hcm]) hcond
      | true => exact Or.inr rfl

/-- A state reachable along forward edges is never lower in the
`NotReached < Inside < Finished` order. -/
theorem progressRTG_toNat_le {p q : Progress}
    (h : Relation.ReflTransGen ProgressStep p q) : p.toNat ≤ q.toNat := by
  induction h with
  | refl => exact Nat.le_refl _
  | tail _ hstep ih => exact Nat.le_trans ih hstep.toNat_le

theorem Progress.toNat_eq_zero {p : Progress} :
    p.toNat = 0 ↔ p = .notReached := by
  cases p <;> simp [Progress.toNat]

theorem Progress.toNat_eq_two {p : Progress} :
    p.toNat = 2 ↔ p = .finished := by
  cases p <;> simp [Progress.toNat]

/-- One scan iteration only follows the state machine's forward edges
(staying put included). -/
theorem scanStep_progress_rtg {tt : TokenTree} {rest rest' : List TokenTree}
    {st st' : LoopState} (h : scanStep tt rest st = some (rest', st')) :
    Relation.ReflTransGen ProgressStep st.progress st'.progress := by
  rcases scanStep_cases h with ⟨hf, -, hst⟩ | ⟨hf, -, hpair⟩ | ⟨hn, -, -, hst⟩
  · subst hst; exact .refl
  · have hst : st' = (scanHashBranch tt.span rest st).2 := by
      rw [← hpair]
    subst hst
    rcases scanHashBranch_progress tt.span rest st with hp | hp <;> rw [hp] <;>
      cases hsp : st.progress
    · exact Relation.ReflTransGen.single .notReachedInside
    · exact Relation.ReflTransGen.single .insideInside
    · exact absurd hsp hf
    · exact Relation.ReflTransGen.head .notReachedInside
        (Relation.ReflTransGen.single .insideFinished)
    · exact Relation.ReflTransGen.single .insideFinished
    · exact absurd hsp hf
  · subst hst
    rw [(scanBefore_spec tt rest st).1]

/-- One scan iteration never decreases the scan state. -/
theorem scanStep_toNat_mono {tt : TokenTree} {rest rest' : List TokenTree}
    {st st' : LoopState} (h : scanStep tt rest st = some (rest', st')) :
    st.progress.toNat ≤ st'.progress.toNat :=
  progressRTG_toNat_le (scanStep_progress_rtg h)

/-- Once the scan state has left `NotReached` it never returns there. -/
theorem scanStep_not_notReached {tt : TokenTree} {rest rest' : List TokenTree}
    {st st' : LoopState} (h : scanStep tt rest st = some (rest', st'))
    (hp : st.progress ≠ .notReached) : st'.progress ≠ .notReached := by
  intro hcon
  have h1 := scanStep_toNat_mono h
  rw [hcon] at h1
  simp only [Progress.toNat] at h1
  exact hp (Progress.toNat_eq_zero.mp (Nat.le_zero.mp h1))

/-- Once the scan state is `Finished`, an iteration keeps it `Finished`,
routes the token to `after` and touches nothing else. -/
theorem scanStep_finished {tt : TokenTree} {rest rest' : List TokenTree}
    {st st' : LoopState} (h : scanStep tt rest st = some (rest', st'))
    (hf : st.progress = .finished) :
    st'.progress = .finished ∧ rest' = rest ∧
      st' = { st with after := st.after ++ [tt] } := by
  rcases scanStep_cases h with ⟨-, hr, hst⟩ | ⟨hnf, -, -⟩ | ⟨hn, -, -, -⟩
  · exact ⟨by rw [hst, hf], hr, hst⟩
  · exact absurd hf hnf
  · rw [hn] at hf; exact absurd hf (by simp)

/-- After the scan state has left `NotReached`, `before` is frozen. -/
theorem scanStep_before_frozen {tt : TokenTree} {rest rest' : List TokenTree}
    {st st' : LoopState} (h : scanStep tt rest st = some (rest', st'))
    (hp : st.progress ≠ .notReached) : st'.before = st.before := by
  rcases scanStep_cases h with ⟨-, -, hst⟩ | ⟨-, -, hpair⟩ | ⟨hn, -, -, -⟩
  · rw [hst]
  · have hst : st' = (scanHashBranch tt.span rest st).2 := by rw [← hpair]
    rw [hst, scanHashBranch_before]
  · exact absurd hn hp

/-- One scan iteration only appends to the diagnostic collector. -/
theorem scanStep_errs_mono {tt : TokenTree} {rest rest' : List TokenTree}
    {st st' : LoopState} (h : scanStep tt rest st = some (rest', st')) :
    ∃ ds, st'.compileErrors = st.compileErrors ++ ds := by
  rcases scanStep_cases h with ⟨-, -, hst⟩ | ⟨-, -, hpair⟩ | ⟨-, -, -, hst⟩
  · exact ⟨[], by rw [hst]; simp⟩
  · have hst : st' = (scanHashBranch tt.span rest st).2 := by rw [← hpair]
    rw [hst]; exact scanHashBranch_errs ..
  · subst hst
    rcases (scanBefore_spec tt rest st).2.2.2 with ⟨-, he, -⟩ | ⟨-, he, -⟩
    · exact ⟨[], by rw [he]; simp⟩
    · exact ⟨_, he⟩

/-- One scan iteration only appends to the segment list. -/
theorem scanStep_docs_mono {tt : TokenTree} {rest rest' : List TokenTree}
    {st st' : LoopState} (h : scanStep tt rest st = some (rest', st')) :
    ∃ ds, st'.docComments = st.docComments ++ ds := by
  rcases scanStep_cases h with ⟨-, -, hst⟩ | ⟨-, -, hpair⟩ | ⟨-, -, -, hst⟩
  · exact ⟨[], by rw [hst]; simp⟩
  · have hst : st' = (scanHashBranch tt.span rest st).2 := by rw [← hpair]
    rw [hst]; exact scanHashBranch_docs ..
  · exact ⟨[], by rw [hst, (scanBefore_spec tt rest st).2.1]; simp⟩

/-! ## Unfolding equations for the scan loop -/

theorem scanLoop_nil (st : LoopState) : scanLoop [] st = some st := by
  simp [scanLoop]

theorem scanLoop_cons_none {tt : TokenTree} {rest : List TokenTree}
    {st : LoopState} (hstep : scanStep tt rest st = Option.none) :
    scanLoop (tt :: rest) st = Option.none := by
  rw [scanLoop.eq_def]
  dsimp only
  split
  · rfl
  · rename_i a b heq
    rw [hstep] at heq
    exact absurd heq (by simp)

theorem scanLoop_cons_some {tt : TokenTree} {rest rest' : List TokenTree}
    {st st1 : LoopState} (hstep : scanStep tt rest st = some (rest', st1)) :
    scanLoop (tt :: rest) st = scanLoop rest' st1 := by
  rw [scanLoop.eq_def]
  dsimp only
  split
  · rename_i heq
    rw [hstep] at heq
    exact absurd heq (by simp)
  · rename_i a b heq
    rw [hstep] at heq
    simp only [Option.some.injEq, Prod.mk.injEq] at heq
    rw [heq.1, heq.2]

/-! ## Facts about the whole scan loop -/

/-- Over the whole scan, the state only moves along the machine's forward
edges. -/
theorem scanLoop_progress_rtg (l : List TokenTree) (st : LoopState) :
    ∀ st', scanLoop l st = some st' →
      Relation.ReflTransGen ProgressStep st.progress st'.progress := by
  induction l, st using scanLoop.induct with
  | case1 st =>
    intro st' h
    rw [scanLoop_nil] at h
    simp only [Option.some.injEq] at h
    rw [h]
  | case2 st tt tail hstep =>
    intro st' h
    rw [scanLoop_cons_none hstep] at h
    exact absurd h (by simp)
  | case3 st tt tail rest' st1 hstep ih =>
    intro st' h
    rw [scanLoop_cons_some hstep] at h
    exact (scanStep_progress_rtg hstep).trans (ih st' h)

/-- Over the whole scan, the diagnostic collector only grows. -/
theorem scanLoop_errs_mono (l : List TokenTree) (st : LoopState) :
    ∀ st', scanLoop l st = some st' →
      ∃ ds, st'.compileErrors = st.compileErrors ++ ds := by
  induction l, st using scanLoop.induct with
  | case1 st =>
    intro st' h
    rw [scanLoop_nil] at h
    simp only [Option.some.injEq] at h
    exact ⟨[], by rw [h]; simp⟩
  | case2 st tt tail hstep =>
    intro st' h
    rw [scanLoop_cons_none hstep] at h
    exact absurd h (by simp)
  | case3 st tt tail rest' st1 hstep ih =>
    intro st' h
    rw [scanLoop_cons_some hstep] at h
    obtain ⟨ds1, h1⟩ := scanStep_errs_mono hstep
    obtain ⟨ds2, h2⟩ := ih st' h
    exact ⟨ds1 ++ ds2, by rw [h2, h1, List.append_assoc]⟩

/-- After the scan state has left `NotReached`, the rest of the scan never
touches `before`. -/
theorem scanLoop_before_frozen (l : List TokenTree) (st : LoopState) :
    ∀ st', scanLoop l st = some st' → st.progress ≠ .notReached →
      st'.before = st.before := by
  induction l, st using scanLoop.induct with
  | case1 st =>
    intro st' h _
    rw [scanLoop_nil] at h
    simp only [Option.some.injEq] at h
    rw [h]
  | case2 st tt tail hstep =>
    intro st' h _
    rw [scanLoop_cons_none hstep] at h
    exact absurd h (by simp)
  | case3 st tt tail rest' st1 hstep ih =>
    intro st' h hp
    rw [scanLoop_cons_some hstep] at h
    rw [ih st' h (scanStep_not_notReached hstep hp),
      scanStep_before_frozen hstep hp]

/-- If the scan ends still in `NotReached`, no segment was collected during
it. -/
theorem scanLoop_notReached_docs (l : List TokenTree) (st : LoopState) :
    ∀ st', scanLoop l st = some st' → st'.progress = .notReached →
      st'.docComments = st.docComments := by
  induction l, st using scanLoop.induct with
  | case1 st =>
    intro st' h _
    rw [scanLoop_nil] at h
    simp only [Option.some.injEq] at h
    rw [h]
  | case2 st tt tail hstep =>
    intro st' h _
    rw [scanLoop_cons_none hstep] at h
    exact absurd h (by simp)
  | case3 st tt tail rest' st1 hstep ih =>
    intro st' h hp
    rw [scanLoop_cons_some hstep] at h
    have h1 : st1.progress = .notReached := by
      by_contra hne
      exact scanLoop_progress_rtg rest' st1 st' h
        |> progressRTG_toNat_le
        |> fun hle => hne (by
          rw [hp, Progress.toNat] at hle
          exact Progress.toNat_eq_zero.mp (Nat.le_zero.mp hle))
    rw [ih st' h hp]
    rcases scanStep_cases hstep with ⟨hf, -, -⟩ | ⟨-, -, hpair⟩ | ⟨-, -, -, hst⟩
    · have := scanStep_finished hstep hf
      rw [this.1] at h1
      exact absurd h1 (by simp)
    · have hst : st1 = (scanHashBranch tt.span tail st).2 := by rw [← hpair]
      rcases scanHashBranch_progress tt.span tail st with hpr | hpr <;>
        rw [hst, hpr] at h1 <;> exact absurd h1 (by simp)
    · rw [hst, (scanBefore_spec tt tail st).2.1]

/-! ## The argument-separator invariant -/

/-- A token known to be a `Punct` with character `c` really is one. -/
theorem ttIsPunct_eq {c : Char} {t : TokenTree} (h : ttIsPunct c t = true) :
    ∃ spc sp, t = .punct c spc sp := by
  match t with
  | .ident nm sp => simp [ttIsPunct] at h
  | .punct ch spc sp =>
    simp only [ttIsPunct, decide_eq_true_eq] at h
    exact ⟨spc, sp, by rw [h]⟩
  | .lit v sp => simp [ttIsPunct] at h
  | .group d ts sp => simp [ttIsPunct] at h

/-- Whether a token stream's last token is a comma punctuation. -/
def endsWithComma (b : List TokenTree) : Bool :=
  match b.getLast? with
  | some t => ttIsPunct ',' t
  | Option.none => false

theorem endsWithComma_concat (b : List TokenTree) (t : TokenTree) :
    endsWithComma (b ++ [t]) = ttIsPunct ',' t := by
  rw [endsWithComma, List.getLast?_concat]

/-- Main invariant behind the argument-list validity property: if a scan
that starts in `NotReached` adds no diagnostic at all, then at its end
either `before` is empty or it ends with a comma — unless the scan never
reached a doc comment, in which case it collected no segment either.
The third hypothesis is the shape in which the invariant is carried through
the loop: whenever the very next token is a `#`, `before` is already
well-terminated. -/
theorem scanLoop_before_good (l : List TokenTree) (st : LoopState) :
    ∀ st', scanLoop l st = some st' →
      st'.compileErrors = st.compileErrors →
      st.progress = .notReached →
      (headIsHash l = true → st.before = [] ∨ endsWithComma st.before = true) →
      (st'.before = [] ∨ endsWithComma st'.before = true) ∨
        (st'.progress = .notReached ∧ st'.docComments = st.docComments) := by
  induction l, st using scanLoop.induct with
  | case1 st =>
    intro st' h herr hp hgood
    rw [scanLoop_nil] at h
    simp only [Option.some.injEq] at h
    rw [← h]
    exact Or.inr ⟨hp, rfl⟩
  | case2 st tt tail hstep =>
    intro st' h herr hp hgood
    rw [scanLoop_cons_none hstep] at h
    exact absurd h (by simp)
  | case3 st tt tail rest' st1 hstep ih =>
    intro st' h herr hp hgood
    rw [scanLoop_cons_some hstep] at h
    obtain ⟨ds1, h1⟩ := scanStep_errs_mono hstep
    obtain ⟨ds2, h2⟩ := scanLoop_errs_mono rest' st1 st' h
    have h3 : st.compileErrors = st.compileErrors ++ (ds1 ++ ds2) := by
      rw [← List.append_assoc, ← h1, ← h2, herr]
    have h4 : ds1 = [] ∧ ds2 = [] := by
      have h5 : ds1 ++ ds2 = [] := by simpa using h3.symm
      simpa using h5
    rcases scanStep_cases hstep with ⟨hf, -, -⟩ | ⟨-, hh, hpair⟩ | ⟨-, hh, hr, hst⟩
    · rw [hp] at hf
      exact absurd hf (by simp)
    · have hgood2 : st.before = [] ∨ endsWithComma st.before = true := by
        apply hgood
        simp [headIsHash, hh]
      have hst1 : st1 = (scanHashBranch tt.span tail st).2 := by rw [← hpair]
      have hp1 : st1.progress ≠ .notReached := by
        rcases scanHashBranch_progress tt.span tail st with hpr | hpr <;>
          rw [hst1, hpr] <;> simp
      have hbf : st'.before = st1.before := scanLoop_before_frozen rest' st1 st' h hp1
      left
      rw [hbf, hst1, scanHashBranch_before]
      exact hgood2
    · obtain spec := scanBefore_spec tt tail st
      rcases spec.2.2.2 with ⟨hb, he, hcase⟩ | ⟨hb, he, hhash, hcomma⟩
      · have hp1 : st1.progress = .notReached := by rw [hst, spec.1, hp]
        have herr1 : st'.compileErrors = st1.compileErrors := by
          rw [hst, he, herr]
        have hgood1 : headIsHash rest' = true →
            st1.before = [] ∨ endsWithComma st1.before = true := by
          intro hhd
          rw [hr] at hhd
          rcases hcase with hfalse | hcm
          · rw [hhd] at hfalse
            exact absurd hfalse (by simp)
          · right
            rw [hst, hb, endsWithComma_concat]
            exact hcm
        rcases ih st' h herr1 hp1 hgood1 with hl | ⟨hpr, hdocs⟩
        · exact Or.inl hl
        · exact Or.inr ⟨hpr, by rw [hdocs, hst, spec.2.1]⟩
      · exfalso
        rw [h4.1, List.append_nil] at h1
        rw [hst, he] at h1
        simp at h1

/-! ## Facts about the synthesis stage -/

/-- Whenever the final collector is non-empty, the output is exactly the
rendered report. -/
theorem synthesize_report {mo : Option (List TokenTree)} {st : LoopState}
    {ds : List Diag} {out : List TokenTree} (h : synthesize mo st = (ds, out))
    (hne : ds ≠ []) : out = renderDiags ds := by
  have key : ∀ (e : List Diag) (suc : List TokenTree),
      (if e.isEmpty then (([] : List Diag), suc) else (e, renderDiags e)) =
        (ds, out) → out = renderDiags ds := by
    intro e suc hh
    split at hh
    · simp only [Prod.mk.injEq] at hh
      exact absurd hh.1.symm hne
    · simp only [Prod.mk.injEq] at hh
      rw [← hh.2, ← hh.1]
  cases mo with
  | none =>
    simp only [synthesize] at h
    exact key _ _ h
  | some m =>
    simp only [synthesize] at h
    exact key _ _ h

/-- With a call target and an empty final collector, the output is the call
expression `target ++ ( before ++ [literal, comma] ++ after )`, the scan
collected no diagnostic, and at least one segment was found. -/
theorem synthesize_call {m : List TokenTree} {st : LoopState}
    {ds : List Diag} {out : List TokenTree}
    (h : synthesize (some m) st = (ds, out)) (hds : ds = []) :
    st.compileErrors = [] ∧ st.docComments ≠ [] ∧
      out = m ++ [.group .parenthesis
        (st.before ++
          [.lit (.str (joinDocComments st.docComments)) callSite,
            .punct ',' .joint callSite] ++ st.after) callSite] := by
  subst hds
  simp only [synthesize] at h
  split at h
  · rename_i hemp
    rw [if_neg (by simp)] at h
    simp at h
  · rename_i hemp
    split at h
    · rename_i hemp2
      simp only [Prod.mk.injEq] at h
      refine ⟨?_, ?_, h.2.symm⟩
      · simpa using hemp2
      · simpa using hemp
    · rename_i hemp2
      simp only [Prod.mk.injEq] at h
      exact absurd (by rw [h.1] ; rfl) hemp2

/-- In bare-literal mode with a non-empty `before` or `after`, a diagnostic
is always filed and the output is the rendered report, never a literal. -/
theorem synthesize_bare_nonempty {st : LoopState} {ds : List Diag}
    {out : List TokenTree} (h : synthesize Option.none st = (ds, out))
    (hne : st.before ≠ [] ∨ st.after ≠ []) :
    ds ≠ [] ∧ out = renderDiags ds := by
  have hcond : (!st.before.isEmpty || !st.after.isEmpty) = true := by
    rcases hne with hb | ha
    · simp [hb]
    · simp [ha]
  simp only [synthesize, hcond, if_true] at h
  rw [if_neg (by simp)] at h
  simp only [Prod.mk.injEq] at h
  constructor
  · rw [← h.1]
    simp
  · rw [← h.2, ← h.1]

/-- `docstrAux` on a non-empty input is `synthesize` applied to the scan's
results. -/
theorem docstrAux_of_parts {input : List TokenTree}
    {mo : Option (List TokenTree)} {st : LoopState}
    (hp : docstrParts input = some (mo, st)) :
    docstrAux input = some (synthesize mo st) := by
  cases input with
  | nil => simp [docstrParts] at hp
  | cons a l =>
    simp only [docstrAux, hp]

/-! ## The Payload Joiner and its trivial inverse -/

theorem strExt {a b : String} (h : a.data = b.data) : a = b := by
  cases a
  cases b
  exact congrArg String.mk h

theorem strData_append (a b : String) : (a ++ b).data = a.data ++ b.data := rfl

theorem strData_push (a : String) (c : Char) :
    (a.push c).data = a.data ++ [c] := rfl

theorem strMk_data (s : String) : String.mk s.data = s := rfl

/-- Pushing a newline is appending the one-character string `"\n"`. -/
theorem push_newline (x : String) : x.push '\n' = x ++ "\n" := by
  apply strExt
  rw [strData_push, strData_append]

/-- The characters the joiner appends after the first segment: a newline
followed by each further segment, in order. -/
def newlineChunks : List String → List Char
  | [] => []
  | s :: rest => '\n' :: s.data ++ newlineChunks rest

/-- Folding the joiner's step over one more segment. -/
theorem joinDocComments_cons_cons (d s : String) (rest : List String) :
    joinDocComments (d :: s :: rest) =
      joinDocComments ((d.push '\n' ++ s) :: rest) := rfl

/-- The character content of a joined non-empty segment list. -/
theorem joinDocComments_data (rest : List String) (d : String) :
    (joinDocComments (d :: rest)).data = d.data ++ newlineChunks rest := by
  induction rest generalizing d with
  | nil => simp [joinDocComments, newlineChunks]
  | cons s rest ih =>
    rw [joinDocComments_cons_cons, ih, newlineChunks]
    rw [strData_append, strData_push]
    simp

/-- Appending one more segment to a non-empty list appends exactly one
newline and that segment. -/
theorem joinDocComments_concat (a : String) (l : List String) (s : String) :
    joinDocComments ((a :: l) ++ [s]) = joinDocComments (a :: l) ++ "\n" ++ s := by
  show List.foldl _ a (l ++ [s]) = _
  rw [List.foldl_append]
  show (joinDocComments (a :: l)).push '\n' ++ s = _
  rw [push_newline]

/-- The trivial inverse of the joiner at character level: split a character
list at every occurrence of `c`. -/
def splitOnChar (c : Char) : List Char → List (List Char)
  | [] => [[]]
  | x :: xs =>
    if x = c then [] :: splitOnChar c xs
    else
      match splitOnChar c xs with
      | [] => [[x]]
      | y :: ys => (x :: y) :: ys

/-- Splitting a list free of the separator gives it back whole. -/
theorem splitOnChar_not_mem {c : Char} {a : List Char} (h : c ∉ a) :
    splitOnChar c a = [a] := by
  induction a with
  | nil => rfl
  | cons x xs ih =>
    have hx : ¬(x = c) := fun he => h (he ▸ List.mem_cons_self x xs)
    have hxs : c ∉ xs := fun hm => h (List.mem_cons_of_mem x hm)
    simp [splitOnChar, hx, ih hxs]

/-- Splitting at the first separator occurrence peels off the prefix. -/
theorem splitOnChar_append {c : Char} {a b : List Char} (h : c ∉ a) :
    splitOnChar c (a ++ c :: b) = a :: splitOnChar c b := by
  induction a with
  | nil => simp [splitOnChar]
  | cons x xs ih =>
    have hx : ¬(x = c) := fun he => h (he ▸ List.mem_cons_self x xs)
    have hxs : c ∉ xs := fun hm => h (List.mem_cons_of_mem x hm)
    simp [splitOnChar, hx, ih hxs]

/-- The trivial inverse of the Payload Joiner: split a string at every
newline character. -/
def splitLines (s : String) : List String :=
  (splitOnChar '\n' s.data).map String.mk

/-- Splitting a segment followed by newline-separated chunks recovers the
segment list, provided no segment contains a newline itself. -/
theorem splitOnChar_newlineChunks (rest : List String) (d : List Char)
    (hd : '\n' ∉ d) (hrest : ∀ s ∈ rest, '\n' ∉ s.data) :
    splitOnChar '\n' (d ++ newlineChunks rest) = d :: rest.map String.data := by
  induction rest generalizing d with
  | nil =>
    rw [newlineChunks]
    simp [splitOnChar_not_mem hd]
  | cons s rest ih =>
    show splitOnChar '\n' (d ++ ('\n' :: (s.data ++ newlineChunks rest))) = _
    rw [splitOnChar_append hd]
    rw [ih s.data (hrest s (List.mem_cons_self s rest))
      (fun t ht => hrest t (List.mem_cons_of_mem s ht))]
    simp

/-- Unpacking a successful `docstrParts` run into the Call-Target Scanner's
result and the scan loop's run. -/
theorem docstrParts_scan {input : List TokenTree}
    {mo : Option (List TokenTree)} {st : LoopState}
    (hp : docstrParts input = some (mo, st)) :
    mo = (scanTarget input).1 ∧
      scanLoop (scanTarget input).2.2
        (initLoopState (scanTarget input).2.1) = some st := by
  cases input with
  | nil => simp [docstrParts] at hp
  | cons a l =>
    simp only [docstrParts] at hp
    cases hs : scanLoop (scanTarget (a :: l)).2.2
        (initLoopState (scanTarget (a :: l)).2.1) with
    | none =>
      rw [hs] at hp
      simp at hp
    | some st2 =>
      rw [hs] at hp
      simp only [Option.some.injEq, Prod.mk.injEq] at hp
      exact ⟨hp.1.symm, by rw [hp.2]⟩

/-- C1: for every input token sequence, if at least one diagnostic has been
collected during the transformation, the returned token sequence is exactly
the rendered diagnostic report — the `compile_error! { ... }` invocations of
the collected diagnostics, one per diagnostic, in order — so it contains no
string-literal or call-expression output, and success output and diagnostics
are never mixed in one result. -/
theorem docstr_diagnostics_fatal (input : List TokenTree) (ds : List Diag)
    (out : List TokenTree) (h : docstrAux input = some (ds, out))
    (hne : ds ≠ []) : out = renderDiags ds := by
  cases input with
  | nil =>
    simp only [docstrAux, Option.some.injEq, Prod.mk.injEq] at h
    exact absurd h.1.symm hne
  | cons a l =>
    cases hp : docstrParts (a :: l) with
    | none =>
      simp only [docstrAux, hp] at h
      exact absurd h (by simp)
    | some pair =>
      obtain ⟨mo, st⟩ := pair
      rw [docstrAux_of_parts hp] at h
      simp only [Option.some.injEq] at h
      exact synthesize_report h hne

/-- C1 witness: the input `# q` (a `#` followed by a non-bracket token)
collects two diagnostics and returns exactly their rendered report. -/
theorem docstr_diagnostics_fatal_witness :
    docstrAux [.punct '#' .alone 1, .ident "q" 2] =
      some ([Diag.mk 2 "expected `[...]`", Diag.mk 0 atLeastOneDocMsg],
        [.ident "compile_error" 2, .punct '!' .alone 2,
          .group .brace [.lit (.str "expected `[...]`") 2] 2,
          .ident "compile_error" 0, .punct '!' .alone 0,
          .group .brace [.lit (.str atLeastOneDocMsg) 0] 0]) ∧
    ([.ident "compile_error" 2, .punct '!' .alone 2,
        .group .brace [.lit (.str "expected `[...]`") 2] 2,
        .ident "compile_error" 0, .punct '!' .alone 0,
        .group .brace [.lit (.str atLeastOneDocMsg) 0] 0] : List TokenTree) =
      renderDiags [Diag.mk 2 "expected `[...]`", Diag.mk 0 atLeastOneDocMsg] := by
  have h : docstrAux [.punct '#' .alone 1, .ident "q" 2] =
      some ([Diag.mk 2 "expected `[...]`", Diag.mk 0 atLeastOneDocMsg],
        [.ident "compile_error" 2, .punct '!' .alone 2,
          .group .brace [.lit (.str "expected `[...]`") 2] 2,
          .ident "compile_error" 0, .punct '!' .alone 0,
          .group .brace [.lit (.str atLeastOneDocMsg) 0] 0]) := by
    simp [docstrAux, docstrParts, scanTarget, scanLoop, scanStep, scanHashBranch,
      scanAttr, scanBefore, parseDocAttrInner, ttIsPunct, headIsHash,
      initLoopState, TokenTree.span, synthesize, renderDiags, compileErrorTokens,
      joinDocComments, callSite]
  exact ⟨h, docstr_diagnostics_fatal _ _ _ h (by simp)⟩

/-- C2: for every input whose call target was scanned and on which no
diagnostic was collected, the output is exactly the target tokens followed
by one parenthesis-delimited group holding `before`, then the synthesized
string literal, then one comma, then `after` — the comma after the literal
is emitted even when `after` is empty. -/
theorem docstr_call_synthesis_shape (input m : List TokenTree)
    (st : LoopState) (ds : List Diag) (out : List TokenTree)
    (hp : docstrParts input = some (some m, st))
    (h : docstrAux input = some (ds, out)) (hds : ds = []) :
    out = m ++ [.group .parenthesis
      (st.before ++
        [.lit (.str (joinDocComments st.docComments)) callSite,
          .punct ',' .joint callSite] ++ st.after) callSite] := by
  rw [docstrAux_of_parts hp] at h
  simp only [Option.some.injEq] at h
  exact (synthesize_call h hds).2.2

/-- C2 witness: `format! #[doc = " Hello, {}"] "world"` synthesizes
`format!("Hello, {}", "world")`, with the comma between the literal and the
trailing argument. -/
theorem docstr_call_synthesis_shape_witness :
    docstrAux [.ident "format" 1, .punct '!' .alone 2, .punct '#' .alone 3,
        .group .bracket [.ident "doc" 4, .punct '=' .alone 5,
          .lit (.str " Hello, {}") 6] 7, .lit (.str "world") 8] =
      some ([], [.ident "format" 1, .punct '!' .alone 2,
        .group .parenthesis [.lit (.str "Hello, {}") callSite,
          .punct ',' .joint callSite, .lit (.str "world") 8] callSite]) ∧
    ([.ident "format" 1, .punct '!' .alone 2,
        .group .parenthesis [.lit (.str "Hello, {}") callSite,
          .punct ',' .joint callSite, .lit (.str "world") 8] callSite]
      : List TokenTree) =
      [.ident "format" 1, .punct '!' .alone 2] ++ [.group .parenthesis
        (([] : List TokenTree) ++
          [.lit (.str (joinDocComments ["Hello, {}"])) callSite,
            .punct ',' .joint callSite] ++ [.lit (.str "world") 8]) callSite] := by
  have hp : docstrParts [.ident "format" 1, .punct '!' .alone 2,
      .punct '#' .alone 3, .group .bracket [.ident "doc" 4, .punct '=' .alone 5,
        .lit (.str " Hello, {}") 6] 7, .lit (.str "world") 8] =
      some (some [.ident "format" 1, .punct '!' .alone 2],
        ⟨[], ["Hello, {}"], [.lit (.str "world") 8], .finished, []⟩) := by
    simp [docstrParts, scanTarget, pathLoop, scanLoop, scanStep, scanHashBranch,
      scanAttr, scanBefore, parseDocAttrInner, decodeStrLit, stripLeadingSpace,
      ttIsPunct, headIsHash, initLoopState, TokenTree.span]
  have h : docstrAux [.ident "format" 1, .punct '!' .alone 2, .punct '#' .alone 3,
      .group .bracket [.ident "doc" 4, .punct '=' .alone 5,
        .lit (.str " Hello, {}") 6] 7, .lit (.str "world") 8] =
      some ([], [.ident "format" 1, .punct '!' .alone 2,
        .group .parenthesis [.lit (.str "Hello, {}") callSite,
          .punct ',' .joint callSite, .lit (.str "world") 8] callSite]) := by
    simp [docstrAux, docstrParts, scanTarget, pathLoop, scanLoop, scanStep,
      scanHashBranch, scanAttr, scanBefore, parseDocAttrInner, decodeStrLit,
      stripLeadingSpace, ttIsPunct, headIsHash, initLoopState, TokenTree.span,
      synthesize, joinDocComments]
  exact ⟨h, docstr_call_synthesis_shape _ _ _ _ _ hp h rfl⟩

/-- C8: in bare-literal mode (no call target), whenever `before` or `after`
is non-empty a diagnostic is filed and the result is the rendered report;
a bare string-literal token is never returned in that case. -/
theorem docstr_bare_mode_rejects_surrounding_tokens (input : List TokenTree)
    (st : LoopState) (ds : List Diag) (out : List TokenTree)
    (hp : docstrParts input = some (Option.none, st))
    (h : docstrAux input = some (ds, out))
    (hne : st.before ≠ [] ∨ st.after ≠ []) :
    ds ≠ [] ∧ out = renderDiags ds := by
  rw [docstrAux_of_parts hp] at h
  simp only [Option.some.injEq] at h
  exact synthesize_bare_nonempty h hne

/-- C8 witness: the bare input `#[doc = " x"] y` has a trailing token `y`,
files the bare-literal-mode diagnostic and returns its report. -/
theorem docstr_bare_mode_rejects_surrounding_tokens_witness :
    ([Diag.mk 0 docsOnlyMsg] : List Diag) ≠ [] ∧
    ([.ident "compile_error" 0, .punct '!' .alone 0,
        .group .brace [.lit (.str docsOnlyMsg) 0] 0] : List TokenTree) =
      renderDiags [Diag.mk 0 docsOnlyMsg] := by
  have hp : docstrParts [.punct '#' .alone 1,
      .group .bracket [.ident "doc" 2, .punct '=' .alone 3, .lit (.str " x") 4] 5,
      .ident "y" 6] =
      some (Option.none, ⟨[], ["x"], [.ident "y" 6], .finished, []⟩) := by
    simp [docstrParts, scanTarget, scanLoop, scanStep, scanHashBranch, scanAttr,
      scanBefore, parseDocAttrInner, decodeStrLit, stripLeadingSpace, ttIsPunct,
      headIsHash, initLoopState, TokenTree.span]
  have h : docstrAux [.punct '#' .alone 1,
      .group .bracket [.ident "doc" 2, .punct '=' .alone 3, .lit (.str " x") 4] 5,
      .ident "y" 6] =
      some ([Diag.mk 0 docsOnlyMsg],
        [.ident "compile_error" 0, .punct '!' .alone 0,
          .group .brace [.lit (.str docsOnlyMsg) 0] 0]) := by
    simp [docstrAux, docstrParts, scanTarget, scanLoop, scanStep, scanHashBranch,
      scanAttr, scanBefore, parseDocAttrInner, decodeStrLit, stripLeadingSpace,
      ttIsPunct, headIsHash, initLoopState, TokenTree.span, synthesize,
      joinDocComments, renderDiags, compileErrorTokens, callSite]
  exact docstr_bare_mode_rejects_surrounding_tokens _ _ _ _ hp h
    (Or.inr (by simp))

/-- C3: the Doc-Segment Scanner's catch-all arm (lib.rs:307-309,
`unreachable!("when the next token is not `#` progress is `Finished`")`) IS
reachable: on the input `# x y` the scanner files "expected `[...]`" at `x`
and continues the loop with the state still `Inside`, so the next iteration
sees the non-`#` token `y` while `Inside` and panics (modelled as `none`).
This refutes the claim that the arm is never reached on any input. -/
theorem docstr_scanner_catchall_reachable :
    docstr [.punct '#' .alone 1, .ident "x" 2, .ident "y" 3] = Option.none := by
  simp [docstr, docstrAux, docstrParts, scanTarget, scanLoop, scanStep,
    scanHashBranch, scanAttr, scanBefore, parseDocAttrInner, ttIsPunct,
    headIsHash, initLoopState, TokenTree.span]

/-- C4 counterexample: on spec example 5's input
`writeln! s #[doc = " hello"]` the missing-separator diagnostic IS filed and
the comma IS inserted, but — because any collected diagnostic replaces the
output — the emitted token sequence is the `compile_error!` report, whose
first token is the `compile_error` identifier, not the claimed call
expression `writeln!(s, "hello")` (which would begin with the identifier
`writeln`). -/
theorem docstr_example5_output_is_report :
    docstr [.ident "writeln" 1, .punct '!' .alone 2, .ident "s" 3,
        .punct '#' .alone 4, .group .bracket [.ident "doc" 5,
          .punct '=' .alone 6, .lit (.str " hello") 7] 8] =
      some (renderDiags [Diag.mk 3 "expected `,` after this"]) ∧
    (renderDiags [Diag.mk 3 "expected `,` after this"]).head? =
      some (.ident "compile_error" 3) := by
  constructor
  · simp [docstr, docstrAux, docstrParts, scanTarget, pathLoop, scanLoop,
      scanStep, scanHashBranch, scanAttr, scanBefore, parseDocAttrInner,
      decodeStrLit, stripLeadingSpace, ttIsPunct, headIsHash, initLoopState,
      TokenTree.span, synthesize, joinDocComments, renderDiags,
      compileErrorTokens, callSite]
  · rfl

/-- C4 amended: on the input `writeln! s #[doc = " hello"]` (call target
`writeln!`, `before` the single token `s` with no trailing comma, one
segment "hello", empty `after`), the diagnostic "expected `,` after this" is
filed at the token `s`, a comma is inserted into `before` after `s`, the
segment "hello" is collected — and, diagnostics being fatal, the emitted
output is the diagnostic report rather than `writeln!(s, "hello")`. -/
theorem docstr_missing_separator_recovers :
    docstrParts [.ident "writeln" 1, .punct '!' .alone 2, .ident "s" 3,
        .punct '#' .alone 4, .group .bracket [.ident "doc" 5,
          .punct '=' .alone 6, .lit (.str " hello") 7] 8] =
      some (some [.ident "writeln" 1, .punct '!' .alone 2],
        ⟨[.ident "s" 3, commaTok], ["hello"], [], .finished,
          [Diag.mk 3 "expected `,` after this"]⟩) ∧
    docstr [.ident "writeln" 1, .punct '!' .alone 2, .ident "s" 3,
        .punct '#' .alone 4, .group .bracket [.ident "doc" 5,
          .punct '=' .alone 6, .lit (.str " hello") 7] 8] =
      some (renderDiags [Diag.mk 3 "expected `,` after this"]) := by
  constructor
  · simp [docstrParts, scanTarget, pathLoop, scanLoop, scanStep,
      scanHashBranch, scanAttr, scanBefore, parseDocAttrInner, decodeStrLit,
      stripLeadingSpace, ttIsPunct, headIsHash, initLoopState, TokenTree.span,
      commaTok, callSite]
  · simp [docstr, docstrAux, docstrParts, scanTarget, pathLoop, scanLoop,
      scanStep, scanHashBranch, scanAttr, scanBefore, parseDocAttrInner,
      decodeStrLit, stripLeadingSpace, ttIsPunct, headIsHash, initLoopState,
      TokenTree.span, synthesize, joinDocComments, renderDiags,
      compileErrorTokens, callSite]

/-- C5: the Payload Joiner reduces the segment list left-to-right, placing
exactly one newline character between consecutive segments and preserving
empty segments verbatim; the empty segment list yields the empty string.
In particular `["foo", "bar"]` joins to `"foo\nbar"` and
`["foo", "bar", ""]` joins to `"foo\nbar\n"`. -/
theorem joinDocComments_single_newline :
    joinDocComments [] = "" ∧
    (∀ (a : String) (l : List String) (s : String),
      joinDocComments ((a :: l) ++ [s]) = joinDocComments (a :: l) ++ "\n" ++ s) ∧
    joinDocComments ["foo", "bar"] = "foo\nbar" ∧
    joinDocComments ["foo", "bar", ""] = "foo\nbar\n" := by
  refine ⟨rfl, joinDocComments_concat, ?_, ?_⟩
  · apply strExt
    rw [joinDocComments_data]
    rfl
  · apply strExt
    rw [joinDocComments_data]
    rfl

/-- C6: for every non-empty list of line strings (strings free of newline
characters), joining the list with a newline as the Payload Joiner does and
then re-splitting the result on newlines recovers the original list. -/
theorem joinDocComments_splitLines_roundtrip (l : List String) (hne : l ≠ [])
    (hl : ∀ s ∈ l, '\n' ∉ s.data) : splitLines (joinDocComments l) = l := by
  cases l with
  | nil => exact absurd rfl hne
  | cons d rest =>
    rw [splitLines, joinDocComments_data,
      splitOnChar_newlineChunks rest d.data (hl d (List.mem_cons_self d rest))
        (fun t ht => hl t (List.mem_cons_of_mem d ht))]
    simp [List.map_map, Function.comp_def, strMk_data]

/-- C6 witness: the round trip at the concrete list `["foo", "bar"]`. -/
theorem joinDocComments_splitLines_roundtrip_witness :
    (["foo", "bar"] : List String) ≠ [] ∧
      splitLines (joinDocComments ["foo", "bar"]) = ["foo", "bar"] :=
  ⟨by simp, joinDocComments_splitLines_roundtrip ["foo", "bar"] (by simp)
    (by decide)⟩

/-- C7: for every pseudo-attribute whose string literal decodes
successfully, the appended segment is the decoded value with at most one
leading space removed: a value beginning with a space loses exactly that one
space (a second leading space is kept, since the remainder is emitted
unchanged), and a value with no leading space is kept whole. -/
theorem stripLeadingSpace_strips_at_most_one :
    (∀ (gsp spDoc spEq : Nat) (spc : Spacing) (tlit : TokenTree)
        (restInner : List TokenTree) (v : String),
      decodeStrLit tlit = some v →
      parseDocAttrInner gsp
          (.ident "doc" spDoc :: .punct '=' spc spEq :: tlit :: restInner) =
        .ok (stripLeadingSpace v)) ∧
    (∀ (v : String) (r : List Char), v.data = ' ' :: r →
      (stripLeadingSpace v).data = r) ∧
    (∀ v : String, v.data.head? ≠ some ' ' → stripLeadingSpace v = v) := by
  refine ⟨?_, ?_, ?_⟩
  · intro gsp spDoc spEq spc tlit restInner v hdec
    simp [parseDocAttrInner, hdec]
  · intro v r hv
    simp [stripLeadingSpace, hv]
  · intro v hv
    cases hd : v.data with
    | nil => simp [stripLeadingSpace, hd]
    | cons c cs =>
      have hc : ¬(c = ' ') := by
        intro he
        exact hv (by rw [hd, he]; rfl)
      simp [stripLeadingSpace, hd, hc]

/-- C7 witness: the literal `"  x"` (two leading spaces) loses exactly one
space, and the attribute `#[doc = "  x"]` appends that stripped value. -/
theorem stripLeadingSpace_strips_at_most_one_witness :
    parseDocAttrInner 0 [.ident "doc" 1, .punct '=' .alone 2,
        .lit (.str "  x") 3] = .ok (stripLeadingSpace "  x") ∧
    (stripLeadingSpace "  x").data = [' ', 'x'] :=
  ⟨stripLeadingSpace_strips_at_most_one.1 0 1 2 .alone (.lit (.str "  x") 3)
      [] "  x" rfl,
   stripLeadingSpace_strips_at_most_one.2.1 "  x" [' ', 'x'] rfl⟩

/-- C9: the Doc-Segment Scanner's state is strictly monotonic over any scan:
the loop starts at `NotReached`; every iteration, and hence the whole loop,
moves the state only along (reflexive-transitive chains of) the three
forward edges `NotReached → Inside`, `Inside → Inside`, `Inside → Finished`;
chains of forward edges never decrease the `NotReached < Inside < Finished`
rank, so no step moves the state backward; and `Finished` is never left. -/
theorem docstr_scan_state_monotonic :
    (∀ errs0 : List Diag, (initLoopState errs0).progress = .notReached) ∧
    (∀ (tt : TokenTree) (rest rest' : List TokenTree) (st st' : LoopState),
      scanStep tt rest st = some (rest', st') →
      Relation.ReflTransGen ProgressStep st.progress st'.progress) ∧
    (∀ (l : List TokenTree) (st st' : LoopState),
      scanLoop l st = some st' →
      Relation.ReflTransGen ProgressStep st.progress st'.progress) ∧
    (∀ p q : Progress,
      Relation.ReflTransGen ProgressStep p q → p.toNat ≤ q.toNat) ∧
    (∀ (tt : TokenTree) (rest rest' : List TokenTree) (st st' : LoopState),
      scanStep tt rest st = some (rest', st') → st.progress = .finished →
      st'.progress = .finished) :=
  ⟨fun _ => rfl,
   fun _ _ _ _ _ h => scanStep_progress_rtg h,
   fun l st st' h => scanLoop_progress_rtg l st st' h,
   fun _ _ h => progressRTG_toNat_le h,
   fun _ _ _ _ _ h hf => (scanStep_finished h hf).1⟩

/-- C9 witness: a concrete iteration (a lone `#` with nothing after it)
moves the state from `NotReached` along forward edges, and the
`NotReached`-to-`Inside` rank comparison holds. -/
theorem docstr_scan_state_monotonic_witness :
    Relation.ReflTransGen ProgressStep (initLoopState []).progress
      (⟨[], [], [], Progress.inside,
        [Diag.mk 1 "expected `#` to be followed by `[...]`"]⟩ :
          LoopState).progress ∧
    Progress.notReached.toNat ≤ Progress.inside.toNat :=
  ⟨docstr_scan_state_monotonic.2.1 (.punct '#' .alone 1) [] []
      (initLoopState [])
      ⟨[], [], [], Progress.inside,
        [Diag.mk 1 "expected `#` to be followed by `[...]`"]⟩ rfl,
   docstr_scan_state_monotonic.2.2.2.1 Progress.notReached Progress.inside
     (Relation.ReflTransGen.single .notReachedInside)⟩

/-- C10: with a non-empty call target and no diagnostic collected, the
emitted argument list is `before ++ [literal, comma] ++ after` where
`before` is empty or ends with a comma — so the synthesized literal is
always separated from the caller's arguments on both sides; and whenever a
separator is missing right before the doc-comment run (a non-comma `before`
token directly followed by `#`), the scanner files "expected `,` after
this" and inserts a recovery comma, never silently emitting the two
unseparated tokens. -/
theorem docstr_argument_list_separated :
    (∀ (input m : List TokenTree) (st : LoopState) (ds : List Diag)
        (out : List TokenTree),
      docstrParts input = some (some m, st) →
      docstrAux input = some (ds, out) → ds = [] → m ≠ [] →
      out = m ++ [.group .parenthesis
          (st.before ++
            [.lit (.str (joinDocComments st.docComments)) callSite,
              .punct ',' .joint callSite] ++ st.after) callSite] ∧
        (st.before = [] ∨ endsWithComma st.before = true)) ∧
    (∀ (tt : TokenTree) (rest rest' : List TokenTree) (st st' : LoopState),
      scanStep tt rest st = some (rest', st') →
      st.progress = .notReached → headIsHash rest = true →
      ttIsPunct ',' tt = false → ttIsPunct '#' tt = false →
      st'.compileErrors =
          st.compileErrors ++ [Diag.mk tt.span "expected `,` after this"] ∧
        st'.before = st.before ++ [tt, commaTok]) := by
  constructor
  · intro input m st ds out hp h hds hm
    obtain ⟨-, hscan⟩ := docstrParts_scan hp
    rw [docstrAux_of_parts hp] at h
    simp only [Option.some.injEq] at h
    obtain ⟨herrs, hdocs, hout⟩ := synthesize_call h hds
    refine ⟨hout, ?_⟩
    obtain ⟨dsx, hdsx⟩ := scanLoop_errs_mono _ _ _ hscan
    have herr0 : st.compileErrors =
        (initLoopState (scanTarget input).2.1).compileErrors := by
      rw [herrs, initLoopState] at hdsx ⊢
      simp only at hdsx ⊢
      exact (List.append_eq_nil.mp hdsx.symm).1.symm
    have hgood := scanLoop_before_good _ _ st hscan herr0 rfl
      (fun _ => Or.inl rfl)
    rcases hgood with hl | ⟨-, hdocs2⟩
    · exact hl
    · rw [initLoopState] at hdocs2
      exact absurd hdocs2 hdocs
  · intro tt rest rest' st st' hstep hn hhash hcomma hnothash
    rcases scanStep_cases hstep with ⟨hf, -, -⟩ | ⟨-, hh, -⟩ | ⟨-, -, -, hst⟩
    · rw [hn] at hf
      exact absurd hf (by simp)
    · exact absurd (hh.symm.trans hnothash) (by simp)
    · subst hst
      obtain spec := scanBefore_spec tt rest st
      rcases spec.2.2.2 with ⟨-, -, hcase⟩ | ⟨hb, he, -, -⟩
      · rcases hcase with hfalse | hcm
        · exact absurd (hhash.symm.trans hfalse) (by simp)
        · exact absurd (hcm.symm.trans hcomma) (by simp)
      · exact ⟨he, hb⟩

/-- C10 witness: the `format!` example has an empty `before`, and the
missing-separator step fires on `writeln! s #[...]`'s token `s`. -/
theorem docstr_argument_list_separated_witness :
    (([.ident "format" 1, .punct '!' .alone 2,
        .group .parenthesis [.lit (.str "Hello, {}") callSite,
          .punct ',' .joint callSite, .lit (.str "world") 8] callSite]
        : List TokenTree) =
      [.ident "format" 1, .punct '!' .alone 2] ++ [.group .parenthesis
        (([] : List TokenTree) ++
          [.lit (.str (joinDocComments ["Hello, {}"])) callSite,
            .punct ',' .joint callSite] ++ [.lit (.str "world") 8]) callSite] ∧
      (([] : List TokenTree) = [] ∨ endsWithComma [] = true)) ∧
    ((⟨[.ident "s" 3, commaTok], [], [], .notReached,
        [Diag.mk 3 "expected `,` after this"]⟩ : LoopState).compileErrors =
      ([] : List Diag) ++ [Diag.mk 3 "expected `,` after this"] ∧
      (⟨[.ident "s" 3, commaTok], [], [], .notReached,
        [Diag.mk 3 "expected `,` after this"]⟩ : LoopState).before =
        ([] : List TokenTree) ++ [.ident "s" 3, commaTok]) := by
  constructor
  · have hp : docstrParts [.ident "format" 1, .punct '!' .alone 2,
        .punct '#' .alone 3, .group .bracket [.ident "doc" 4,
          .punct '=' .alone 5, .lit (.str " Hello, {}") 6] 7,
        .lit (.str "world") 8] =
        some (some [.ident "format" 1, .punct '!' .alone 2],
          ⟨[], ["Hello, {}"], [.lit (.str "world") 8], .finished, []⟩) := by
      simp [docstrParts, scanTarget, pathLoop, scanLoop, scanStep,
        scanHashBranch, scanAttr, scanBefore, parseDocAttrInner, decodeStrLit,
        stripLeadingSpace, ttIsPunct, headIsHash, initLoopState, TokenTree.span]
    have h : docstrAux [.ident "format" 1, .punct '!' .alone 2,
        .punct '#' .alone 3, .group .bracket [.ident "doc" 4,
          .punct '=' .alone 5, .lit (.str " Hello, {}") 6] 7,
        .lit (.str "world") 8] =
        some ([], [.ident "format" 1, .punct '!' .alone 2,
          .group .parenthesis [.lit (.str "Hello, {}") callSite,
            .punct ',' .joint callSite, .lit (.str "world") 8] callSite]) := by
      simp [docstrAux, docstrParts, scanTarget, pathLoop, scanLoop, scanStep,
        scanHashBranch, scanAttr, scanBefore, parseDocAttrInner, decodeStrLit,
        stripLeadingSpace, ttIsPunct, headIsHash, initLoopState, TokenTree.span,
        synthesize, joinDocComments]
    exact docstr_argument_list_separated.1 _ _ _ _ _ hp h rfl (by simp)
  · exact docstr_argument_list_separated.2 (.ident "s" 3)
      [.punct '#' .alone 4, .group .bracket [.ident "doc" 5,
        .punct '=' .alone 6, .lit (.str " hello") 7] 8]
      [.punct '#' .alone 4, .group .bracket [.ident "doc" 5,
        .punct '=' .alone 6, .lit (.str " hello") 7] 8]
      (initLoopState [])
      ⟨[.ident "s" 3, commaTok], [], [], .notReached,
        [Diag.mk 3 "expected `,` after this"]⟩
      rfl rfl rfl rfl rfl
